import Mathlib

/-!
Shallow embedding of the patient scheduling program (`cs2assign.cpp`):
the `Patient` record, the `Scheduler` state, `addPatient`, the two
serving loops of `servePatients`, the average-wait computation of
`displayStatistics`, and the console driver's handling of a manually
entered patient record. Machine `int`s are modelled as `Int`; the
FIFO `std::queue`s as Lean lists with the front at the head.
-/

structure Patient where
  id : String
  gender : Char
  arrival_time : String
  type : String
  arrival_minute : Int
  deriving DecidableEq

structure Scheduler where
  urgent_queue : List Patient := []
  normal_queue : List Patient := []
  served_patients : List Patient := []
  total_patients : Int := 0
  total_urgent : Int := 0
  total_normal : Int := 0
  total_waiting_time : Int := 0
  total_served : Int := 0
  deriving DecidableEq

def initScheduler : Scheduler := {}

/-- `Scheduler::addPatient`: route the patient by its `type` string and
bump the admission counters. -/
def addPatient (s : Scheduler) (patient : Patient) : Scheduler :=
  if patient.type = "Urgent" then
    { s with
      urgent_queue := s.urgent_queue ++ [patient]
      total_urgent := s.total_urgent + 1
      total_patients := s.total_patients + 1 }
  else
    { s with
      normal_queue := s.normal_queue ++ [patient]
      total_normal := s.total_normal + 1
      total_patients := s.total_patients + 1 }

/-- Result of one serving loop: the remaining queue, the patients newly
appended to the served list (in order), the waiting time added to the
running total, and the final value of the local `served` counter. -/
structure ServeResult where
  queue : List Patient
  servedDelta : List Patient
  waitDelta : Int
  served : Int
  deriving DecidableEq

/-- One `while (served < max_to_serve && !queue.empty())` loop of
`Scheduler::servePatients`: pop the front patient, compute
`waiting_time = minute - arrival_minute`, skip the patient entirely when
`waiting_time > 10`, otherwise append it to the served list, add its
waiting time, and increment `served`. -/
def serveQueue (max_to_serve minute : Int) : List Patient → Int → ServeResult
  | [], served => ⟨[], [], 0, served⟩
  | p :: rest, served =>
    if served < max_to_serve then
      if minute - p.arrival_minute > 10 then
        serveQueue max_to_serve minute rest served
      else
        ⟨(serveQueue max_to_serve minute rest (served + 1)).queue,
         p :: (serveQueue max_to_serve minute rest (served + 1)).servedDelta,
         (minute - p.arrival_minute) + (serveQueue max_to_serve minute rest (served + 1)).waitDelta,
         (serveQueue max_to_serve minute rest (served + 1)).served⟩
    else ⟨p :: rest, [], 0, served⟩

/-- The urgent phase of `servePatients`, starting from `served = 0`. -/
def Scheduler.urgentResult (s : Scheduler) (max_to_serve minute : Int) : ServeResult :=
  serveQueue max_to_serve minute s.urgent_queue 0

/-- The normal phase of `servePatients`, continuing with the `served`
count left by the urgent phase. -/
def Scheduler.normalResult (s : Scheduler) (max_to_serve minute : Int) : ServeResult :=
  serveQueue max_to_serve minute s.normal_queue (s.urgentResult max_to_serve minute).served

/-- `Scheduler::servePatients`: run the urgent loop, then the normal
loop, append the served patients, add the waiting times, and add the
final `served` count to `total_served`. -/
def servePatients (s : Scheduler) (max_to_serve minute : Int) : Scheduler :=
  { s with
    urgent_queue := (s.urgentResult max_to_serve minute).queue
    normal_queue := (s.normalResult max_to_serve minute).queue
    served_patients := s.served_patients ++
      ((s.urgentResult max_to_serve minute).servedDelta ++
        (s.normalResult max_to_serve minute).servedDelta)
    total_waiting_time := s.total_waiting_time +
      ((s.urgentResult max_to_serve minute).waitDelta +
        (s.normalResult max_to_serve minute).waitDelta)
    total_served := s.total_served + (s.normalResult max_to_serve minute).served }

/-- The average computed by `Scheduler::displayStatistics`: the division
`total_waiting_time / total_served` happens only under the guard
`total_served > 0`; otherwise the report is "N/A", modelled as `none`. -/
def averageWaitingTime (s : Scheduler) : Option ℚ :=
  if s.total_served > 0 then
    some ((s.total_waiting_time : ℚ) / (s.total_served : ℚ))
  else none

/-- The calls the driver can make on the scheduler. -/
inductive Op where
  | add : Patient → Op
  | serve : Int → Int → Op
  deriving DecidableEq

def runOp (s : Scheduler) : Op → Scheduler
  | .add p => addPatient s p
  | .serve max_to_serve minute => servePatients s max_to_serve minute

def run (s : Scheduler) (ops : List Op) : Scheduler :=
  ops.foldl runOp s

/-- Ghost log: the waiting times, at their serving call's `minute`, of
the entries appended to `served_patients` over a sequence of calls. -/
def servedWaits : Scheduler → List Op → List Int
  | _, [] => []
  | s, Op.add p :: rest => servedWaits (addPatient s p) rest
  | s, Op.serve max_to_serve minute :: rest =>
    ((servePatients s max_to_serve minute).served_patients.drop
        s.served_patients.length).map (fun p => minute - p.arrival_minute) ++
      servedWaits (servePatients s max_to_serve minute) rest

/-- The console driver's normalization of the CATEGORY field:
`for (char& c : type) c = toupper(c);`. -/
def normalizeType (t : String) : String :=
  String.mk (t.data.map Char.toUpper)

/-- The console driver's handling of a manual record `ID GENDER TIME
CATEGORY` after tokenization: uppercase the category, reject it unless
it reads `URGENT` or `NORMAL`, then build the `Patient` with the current
minute as its arrival and hand it to `addPatient`. -/
def processManualEntry (s : Scheduler) (id : String) (gender : Char)
    (arrival_time : String) (category : String) (minute : Int) : Option Scheduler :=
  let t := normalizeType category
  if t ≠ "URGENT" ∧ t ≠ "NORMAL" then none
  else some (addPatient s ⟨id, gender, arrival_time, t, minute⟩)

/-! Concrete patients and states used to instantiate the theorems. -/

def pUrgent : Patient := ⟨"U1", 'F', "09:00", "Urgent", 0⟩

def pNormal : Patient := ⟨"N1", 'M', "09:05", "Normal", 0⟩

def pLate : Patient := ⟨"L1", 'M', "00:05", "Urgent", 5⟩

def sBoth : Scheduler := addPatient (addPatient initScheduler pUrgent) pNormal

def opsDemo : List Op := [Op.add pUrgent, Op.serve 1 5]

/-! Basic lemmas about the serving loop. -/

theorem serveQueue_served_eq (max_to_serve minute : Int) (q : List Patient) :
    ∀ c : Int, (serveQueue max_to_serve minute q c).served =
      c + ((serveQueue max_to_serve minute q c).servedDelta.length : Int) := by
  induction q with
  | nil => intro c; simp [serveQueue]
  | cons p rest ih =>
    intro c
    by_cases hc : c < max_to_serve
    · by_cases hw : minute - p.arrival_minute > 10
      · simpa [serveQueue, hc, hw] using ih c
      · have h := ih (c + 1)
        simp only [serveQueue, if_pos hc, if_neg hw, List.length_cons] at h ⊢
        push_cast
        omega
    · simp [serveQueue, hc]

theorem serveQueue_served_le (max_to_serve minute : Int) (q : List Patient) :
    ∀ c : Int, c ≤ max_to_serve →
      (serveQueue max_to_serve minute q c).served ≤ max_to_serve := by
  induction q with
  | nil => intro c hc; simpa [serveQueue] using hc
  | cons p rest ih =>
    intro c hc
    by_cases hcap : c < max_to_serve
    · by_cases hw : minute - p.arrival_minute > 10
      · simpa [serveQueue, hcap, hw] using ih c hc
      · have h := ih (c + 1) (by omega)
        simpa [serveQueue, hcap, hw] using h
    · simpa [serveQueue, hcap] using hc

theorem serveQueue_le_served (max_to_serve minute : Int) (q : List Patient) (c : Int) :
    c ≤ (serveQueue max_to_serve minute q c).served := by
  have h := serveQueue_served_eq max_to_serve minute q c
  omega

theorem serveQueue_delta_wait_le (max_to_serve minute : Int) (q : List Patient) :
    ∀ c : Int, ∀ p ∈ (serveQueue max_to_serve minute q c).servedDelta,
      minute - p.arrival_minute ≤ 10 := by
  induction q with
  | nil => intro c p hp; simp [serveQueue] at hp
  | cons a rest ih =>
    intro c p hp
    by_cases hc : c < max_to_serve
    · by_cases hw : minute - a.arrival_minute > 10
      · exact ih c p (by simpa [serveQueue, hc, hw] using hp)
      · simp only [serveQueue, if_pos hc, if_neg hw, List.mem_cons] at hp
        rcases hp with rfl | hp
        · omega
        · exact ih (c + 1) p hp
    · simp [serveQueue, hc] at hp

theorem serveQueue_delta_mem (max_to_serve minute : Int) (q : List Patient) :
    ∀ c : Int, ∀ p ∈ (serveQueue max_to_serve minute q c).servedDelta, p ∈ q := by
  induction q with
  | nil => intro c p hp; simp [serveQueue] at hp
  | cons a rest ih =>
    intro c p hp
    by_cases hc : c < max_to_serve
    · by_cases hw : minute - a.arrival_minute > 10
      · exact List.mem_cons_of_mem a (ih c p (by simpa [serveQueue, hc, hw] using hp))
      · simp only [serveQueue, if_pos hc, if_neg hw, List.mem_cons] at hp
        rcases hp with rfl | hp
        · exact List.mem_cons_self p rest
        · exact List.mem_cons_of_mem a (ih (c + 1) p hp)
    · simp [serveQueue, hc] at hp

theorem serveQueue_queue_suffix (max_to_serve minute : Int) (q : List Patient) :
    ∀ c : Int, (serveQueue max_to_serve minute q c).queue <:+ q := by
  induction q with
  | nil => intro c; simp [serveQueue]
  | cons a rest ih =>
    intro c
    by_cases hc : c < max_to_serve
    · by_cases hw : minute - a.arrival_minute > 10
      · simpa [serveQueue, hc, hw] using (ih c).trans (List.suffix_cons a rest)
      · simpa [serveQueue, hc, hw] using (ih (c + 1)).trans (List.suffix_cons a rest)
    · simp [serveQueue, hc]

theorem serveQueue_drain (max_to_serve minute : Int) (q : List Patient) :
    ∀ c : Int, (serveQueue max_to_serve minute q c).served < max_to_serve →
      (serveQueue max_to_serve minute q c).queue = [] := by
  induction q with
  | nil => intro c _; simp [serveQueue]
  | cons a rest ih =>
    intro c hlt
    by_cases hc : c < max_to_serve
    · by_cases hw : minute - a.arrival_minute > 10
      · simp only [serveQueue, if_pos hc, if_pos hw] at hlt ⊢
        exact ih c hlt
      · simp only [serveQueue, if_pos hc, if_neg hw] at hlt ⊢
        exact ih (c + 1) hlt
    · simp only [serveQueue, if_neg hc] at hlt
      omega

theorem serveQueue_waitDelta_eq (max_to_serve minute : Int) (q : List Patient) :
    ∀ c : Int, (serveQueue max_to_serve minute q c).waitDelta =
      ((serveQueue max_to_serve minute q c).servedDelta.map
        (fun p => minute - p.arrival_minute)).sum := by
  induction q with
  | nil => intro c; simp [serveQueue]
  | cons a rest ih =>
    intro c
    by_cases hc : c < max_to_serve
    · by_cases hw : minute - a.arrival_minute > 10
      · simpa [serveQueue, hc, hw] using ih c
      · simp only [serveQueue, if_pos hc, if_neg hw, List.map_cons, List.sum_cons]
        rw [ih (c + 1)]
    · simp [serveQueue, hc]

theorem serveQueue_waitDelta_nonneg (max_to_serve minute : Int) (q : List Patient) :
    ∀ c : Int, (∀ p ∈ q, p.arrival_minute ≤ minute) →
      0 ≤ (serveQueue max_to_serve minute q c).waitDelta := by
  induction q with
  | nil => intro c _; simp [serveQueue]
  | cons a rest ih =>
    intro c hq
    by_cases hc : c < max_to_serve
    · by_cases hw : minute - a.arrival_minute > 10
      · simpa [serveQueue, hc, hw] using
          ih c (fun p hp => hq p (List.mem_cons_of_mem a hp))
      · have ha := hq a (List.mem_cons_self a rest)
        have h := ih (c + 1) (fun p hp => hq p (List.mem_cons_of_mem a hp))
        simp only [serveQueue, if_pos hc, if_neg hw]
        omega
    · simp [serveQueue, hc]

theorem serveQueue_length_bound (max_to_serve minute : Int) (q : List Patient) :
    ∀ c : Int, (serveQueue max_to_serve minute q c).servedDelta.length +
      (serveQueue max_to_serve minute q c).queue.length ≤ q.length := by
  induction q with
  | nil => intro c; simp [serveQueue]
  | cons a rest ih =>
    intro c
    by_cases hc : c < max_to_serve
    · by_cases hw : minute - a.arrival_minute > 10
      · have h := ih c
        simp only [serveQueue, if_pos hc, if_pos hw, List.length_cons]
        omega
      · have h := ih (c + 1)
        simp only [serveQueue, if_pos hc, if_neg hw, List.length_cons]
        omega
    · simp [serveQueue, hc]

theorem serveQueue_delta_nil_of_budget (max_to_serve minute : Int) (q : List Patient)
    (c : Int) (h : ¬ c < max_to_serve) :
    (serveQueue max_to_serve minute q c).servedDelta = [] := by
  cases q <;> simp [serveQueue, h]

/-- Claim C1: in a single `servePatients` call the served additions are
the urgent-phase additions followed by the normal-phase additions; each
urgent-phase addition comes from `urgent_queue` and each normal-phase
addition from `normal_queue`; a non-empty normal phase implies the
urgent queue was drained; and with capacity at least 1 and no stale
urgent entry the first patient served is the front of `urgent_queue`. -/
theorem servePatients_urgent_first (s : Scheduler) (cap tick : Int) :
    (servePatients s cap tick).served_patients =
      s.served_patients ++ ((s.urgentResult cap tick).servedDelta ++
        (s.normalResult cap tick).servedDelta) ∧
    (∀ p ∈ (s.urgentResult cap tick).servedDelta, p ∈ s.urgent_queue) ∧
    (∀ p ∈ (s.normalResult cap tick).servedDelta, p ∈ s.normal_queue) ∧
    ((s.normalResult cap tick).servedDelta ≠ [] →
      (servePatients s cap tick).urgent_queue = []) ∧
    (1 ≤ cap → s.urgent_queue ≠ [] →
      (∀ p ∈ s.urgent_queue, tick - p.arrival_minute ≤ 10) →
      ((s.urgentResult cap tick).servedDelta ++
        (s.normalResult cap tick).servedDelta).head? = s.urgent_queue.head?) := by
  refine ⟨rfl, ?_, ?_, ?_, ?_⟩
  · exact serveQueue_delta_mem cap tick s.urgent_queue 0
  · exact serveQueue_delta_mem cap tick s.normal_queue (s.urgentResult cap tick).served
  · intro hne
    by_cases hl : (s.urgentResult cap tick).served < cap
    · exact serveQueue_drain cap tick s.urgent_queue 0 hl
    · exact absurd (serveQueue_delta_nil_of_budget cap tick s.normal_queue
        (s.urgentResult cap tick).served hl) hne
  · intro hcap hne hstale
    cases hq : s.urgent_queue with
    | nil => exact absurd hq hne
    | cons pu rest =>
      have h0 : (0 : Int) < cap := by omega
      have hw : ¬ tick - pu.arrival_minute > 10 := by
        have := hstale pu (by rw [hq]; exact List.mem_cons_self pu rest)
        omega
      simp [Scheduler.urgentResult, hq, serveQueue, h0, hw]

/-- Claim C1 witness: with one fresh urgent and one fresh normal patient
queued and capacity 1 at tick 0, the first patient served is the front
of the urgent queue. -/
theorem servePatients_urgent_first_witness :
    ((sBoth.urgentResult 1 0).servedDelta ++
      (sBoth.normalResult 1 0).servedDelta).head? = sBoth.urgent_queue.head? :=
  (servePatients_urgent_first sBoth 1 0).2.2.2.2 (by decide) (by decide) (by decide)

/-- Claim C2: every patient appended to `served_patients` by a
`servePatients` call has wait at most 10 at the serving tick;
`total_served` grows by exactly the number of appended patients and
`total_waiting_time` by exactly the sum of their waits (so dropped stale
patients contribute to neither); and both queues end as suffixes of
their entry values, so a popped patient is never returned to a queue. -/
theorem servePatients_stale_excluded (s : Scheduler) (cap tick : Int) :
    (∀ p ∈ (s.urgentResult cap tick).servedDelta ++
        (s.normalResult cap tick).servedDelta, tick - p.arrival_minute ≤ 10) ∧
    (servePatients s cap tick).total_served = s.total_served +
      (((s.urgentResult cap tick).servedDelta ++
        (s.normalResult cap tick).servedDelta).length : Int) ∧
    (servePatients s cap tick).total_waiting_time = s.total_waiting_time +
      (((s.urgentResult cap tick).servedDelta ++
        (s.normalResult cap tick).servedDelta).map
          (fun p => tick - p.arrival_minute)).sum ∧
    (servePatients s cap tick).urgent_queue <:+ s.urgent_queue ∧
    (servePatients s cap tick).normal_queue <:+ s.normal_queue := by
  refine ⟨?_, ?_, ?_, ?_, ?_⟩
  · intro p hp
    rcases List.mem_append.1 hp with h | h
    · exact serveQueue_delta_wait_le cap tick s.urgent_queue 0 p h
    · exact serveQueue_delta_wait_le cap tick s.normal_queue
        (s.urgentResult cap tick).served p h
  · have h1 := serveQueue_served_eq cap tick s.urgent_queue 0
    have h2 := serveQueue_served_eq cap tick s.normal_queue
      (s.urgentResult cap tick).served
    simp only [servePatients, Scheduler.normalResult, Scheduler.urgentResult,
      List.length_append] at h1 h2 ⊢
    push_cast
    omega
  · have h1 := serveQueue_waitDelta_eq cap tick s.urgent_queue 0
    have h2 := serveQueue_waitDelta_eq cap tick s.normal_queue
      (s.urgentResult cap tick).served
    simp only [servePatients, Scheduler.normalResult, Scheduler.urgentResult,
      List.map_append, List.sum_append] at h1 h2 ⊢
    omega
  · exact serveQueue_queue_suffix cap tick s.urgent_queue 0
  · exact serveQueue_queue_suffix cap tick s.normal_queue
      (s.urgentResult cap tick).served

/-- Claim C2 witness: in a concrete call the fresh urgent patient that
got served indeed has wait at most 10 at the serving tick. -/
theorem servePatients_stale_excluded_witness :
    (0 : Int) - pUrgent.arrival_minute ≤ 10 :=
  (servePatients_stale_excluded sBoth 5 0).1 pUrgent (by decide)

/-- Claim C3: for a non-negative capacity, one `servePatients` call
increases `total_served` by at most `capacity`, and the increase equals
the number of patients appended to `served_patients`. -/
theorem servePatients_capacity_bound (s : Scheduler) (cap tick : Int) (h : 0 ≤ cap) :
    (servePatients s cap tick).total_served - s.total_served ≤ cap ∧
    ((servePatients s cap tick).served_patients.length : Int) =
      (s.served_patients.length : Int) +
        ((servePatients s cap tick).total_served - s.total_served) := by
  have hu := serveQueue_served_le cap tick s.urgent_queue 0 h
  have hn := serveQueue_served_le cap tick s.normal_queue
    (s.urgentResult cap tick).served hu
  have h1 := serveQueue_served_eq cap tick s.urgent_queue 0
  have h2 := serveQueue_served_eq cap tick s.normal_queue
    (s.urgentResult cap tick).served
  simp only [servePatients, Scheduler.normalResult, Scheduler.urgentResult,
    List.length_append] at hu hn h1 h2 ⊢
  constructor
  · omega
  · push_cast
    omega

/-- Claim C3 witness: a concrete call with capacity 5 serves at most 5
patients, and the `total_served` increase matches the served-log growth. -/
theorem servePatients_capacity_bound_witness :
    (servePatients sBoth 5 0).total_served - sBoth.total_served ≤ 5 ∧
    ((servePatients sBoth 5 0).served_patients.length : Int) =
      (sBoth.served_patients.length : Int) +
        ((servePatients sBoth 5 0).total_served - sBoth.total_served) :=
  servePatients_capacity_bound sBoth 5 0 (by decide)

/-- Claim C8: whenever `total_served = 0`, the statistics report yields
the defined "not available" outcome and the division is never taken. -/
theorem averageWaitingTime_none_of_no_served (s : Scheduler)
    (h : s.total_served = 0) : averageWaitingTime s = none := by
  simp [averageWaitingTime, h]

/-- Claim C8 witness: the fresh scheduler has served nobody and its
average report is "not available". -/
theorem averageWaitingTime_none_of_no_served_witness :
    averageWaitingTime initScheduler = none :=
  averageWaitingTime_none_of_no_served initScheduler rfl

/-- Claim C9: a `servePatients` call never changes the admission
counters `total_patients`, `total_urgent`, `total_normal`, and with both
queues empty at entry it leaves the whole scheduler state unchanged. -/
theorem servePatients_admission_frame (s : Scheduler) (cap tick : Int) :
    (servePatients s cap tick).total_patients = s.total_patients ∧
    (servePatients s cap tick).total_urgent = s.total_urgent ∧
    (servePatients s cap tick).total_normal = s.total_normal ∧
    (s.urgent_queue = [] → s.normal_queue = [] → servePatients s cap tick = s) := by
  refine ⟨rfl, rfl, rfl, ?_⟩
  intro h1 h2
  cases s with
  | mk uq nq sp tp tu tn twt ts =>
    simp only at h1 h2
    subst h1 h2
    simp [servePatients, Scheduler.urgentResult, Scheduler.normalResult, serveQueue]

/-- Claim C9 witness: serving on the empty scheduler is the identity. -/
theorem servePatients_admission_frame_witness :
    servePatients initScheduler 5 3 = initScheduler :=
  (servePatients_admission_frame initScheduler 5 3).2.2.2 rfl rfl

/-- Claim C10: `servePatients` (defined total in this embedding)
performs one pop per loop iteration: each remaining queue is a suffix of
the entry queue, and per queue the served additions plus the remaining
entries never exceed the entry length, so the combined iteration count
is bounded by the combined entry lengths. -/
theorem servePatients_termination_bound (s : Scheduler) (cap tick : Int) :
    (servePatients s cap tick).urgent_queue <:+ s.urgent_queue ∧
    (servePatients s cap tick).normal_queue <:+ s.normal_queue ∧
    (s.urgentResult cap tick).servedDelta.length +
      (servePatients s cap tick).urgent_queue.length ≤ s.urgent_queue.length ∧
    (s.normalResult cap tick).servedDelta.length +
      (servePatients s cap tick).normal_queue.length ≤ s.normal_queue.length := by
  refine ⟨?_, ?_, ?_, ?_⟩
  · exact serveQueue_queue_suffix cap tick s.urgent_queue 0
  · exact serveQueue_queue_suffix cap tick s.normal_queue
      (s.urgentResult cap tick).served
  · exact serveQueue_length_bound cap tick s.urgent_queue 0
  · exact serveQueue_length_bound cap tick s.normal_queue
      (s.urgentResult cap tick).served

theorem addPatient_served_patients (s : Scheduler) (p : Patient) :
    (addPatient s p).served_patients = s.served_patients := by
  unfold addPatient; split <;> rfl

theorem addPatient_total_served (s : Scheduler) (p : Patient) :
    (addPatient s p).total_served = s.total_served := by
  unfold addPatient; split <;> rfl

theorem addPatient_total_waiting_time (s : Scheduler) (p : Patient) :
    (addPatient s p).total_waiting_time = s.total_waiting_time := by
  unfold addPatient; split <;> rfl

theorem addPatient_total_patients (s : Scheduler) (p : Patient) :
    (addPatient s p).total_patients = s.total_patients + 1 := by
  unfold addPatient; split <;> rfl

theorem addPatient_category_split (s : Scheduler) (p : Patient) :
    ((addPatient s p).total_urgent = s.total_urgent + 1 ∧
      (addPatient s p).total_normal = s.total_normal) ∨
    ((addPatient s p).total_urgent = s.total_urgent ∧
      (addPatient s p).total_normal = s.total_normal + 1) := by
  unfold addPatient; split
  · exact Or.inl ⟨rfl, rfl⟩
  · exact Or.inr ⟨rfl, rfl⟩

theorem foldl_addPatient_counters (ps : List Patient) :
    ∀ s : Scheduler,
      (ps.foldl addPatient s).total_patients = s.total_patients + (ps.length : Int) ∧
      (ps.foldl addPatient s).total_urgent + (ps.foldl addPatient s).total_normal =
        s.total_urgent + s.total_normal + (ps.length : Int) := by
  induction ps with
  | nil => intro s; simp
  | cons p rest ih =>
    intro s
    have h := ih (addPatient s p)
    have h1 := addPatient_total_patients s p
    have h2 := addPatient_category_split s p
    simp only [List.foldl_cons, List.length_cons] at h ⊢
    push_cast at h ⊢
    rcases h2 with ⟨hu, hn⟩ | ⟨hu, hn⟩ <;> omega

/-- Claim C5: after any sequence of `addPatient` calls from the initial
state, `total_patients` equals `total_urgent + total_normal` and equals
the number of calls; and each single call adds one to `total_patients`
and to exactly one of `total_urgent` and `total_normal`. -/
theorem addPatient_admission_counters (ps : List Patient) :
    (ps.foldl addPatient initScheduler).total_patients =
      (ps.foldl addPatient initScheduler).total_urgent +
        (ps.foldl addPatient initScheduler).total_normal ∧
    (ps.foldl addPatient initScheduler).total_patients = (ps.length : Int) ∧
    (∀ s : Scheduler, ∀ p : Patient,
      (addPatient s p).total_patients = s.total_patients + 1 ∧
      (((addPatient s p).total_urgent = s.total_urgent + 1 ∧
        (addPatient s p).total_normal = s.total_normal) ∨
       ((addPatient s p).total_urgent = s.total_urgent ∧
        (addPatient s p).total_normal = s.total_normal + 1))) := by
  have h := foldl_addPatient_counters ps initScheduler
  refine ⟨?_, ?_, ?_⟩
  · have : initScheduler.total_patients = 0 := rfl
    have hu : initScheduler.total_urgent = 0 := rfl
    have hn : initScheduler.total_normal = 0 := rfl
    omega
  · have : initScheduler.total_patients = 0 := rfl
    omega
  · intro s p
    exact ⟨addPatient_total_patients s p, addPatient_category_split s p⟩

/-- Claim C7 counterexample: serving at tick 0 a patient admitted with
`arrival_minute = 5` adds a negative wait, so `total_waiting_time`
strictly decreases across the call — the counters are not all
monotonically non-decreasing for arbitrary tick arguments. -/
theorem cumulativeWait_decreases_counterexample :
    (servePatients (addPatient initScheduler pLate) 1 0).total_waiting_time <
      (addPatient initScheduler pLate).total_waiting_time := by decide

/-- Claim C7 (amended): `total_patients`, `total_urgent`, `total_normal`,
`total_served` never decrease across any `addPatient` or `servePatients`
call; `total_waiting_time` never decreases across `addPatient`, and
never decreases across a `servePatients` call whose tick is at least the
arrival tick of every queued patient. -/
theorem counters_monotone_amended (s : Scheduler) (p : Patient) (cap tick : Int) :
    (s.total_patients ≤ (addPatient s p).total_patients ∧
     s.total_urgent ≤ (addPatient s p).total_urgent ∧
     s.total_normal ≤ (addPatient s p).total_normal ∧
     s.total_served ≤ (addPatient s p).total_served ∧
     s.total_waiting_time ≤ (addPatient s p).total_waiting_time) ∧
    (s.total_patients ≤ (servePatients s cap tick).total_patients ∧
     s.total_urgent ≤ (servePatients s cap tick).total_urgent ∧
     s.total_normal ≤ (servePatients s cap tick).total_normal ∧
     s.total_served ≤ (servePatients s cap tick).total_served) ∧
    ((∀ q ∈ s.urgent_queue, q.arrival_minute ≤ tick) →
     (∀ q ∈ s.normal_queue, q.arrival_minute ≤ tick) →
     s.total_waiting_time ≤ (servePatients s cap tick).total_waiting_time) := by
  refine ⟨?_, ?_, ?_⟩
  · have h1 := addPatient_total_patients s p
    have h2 := addPatient_category_split s p
    have h3 := addPatient_total_served s p
    have h4 := addPatient_total_waiting_time s p
    rcases h2 with ⟨hu, hn⟩ | ⟨hu, hn⟩ <;> exact ⟨by omega, by omega, by omega, by omega, by omega⟩
  · have h0 : (0 : Int) ≤ (s.urgentResult cap tick).served :=
      serveQueue_le_served cap tick s.urgent_queue 0
    have h1 : (s.urgentResult cap tick).served ≤ (s.normalResult cap tick).served :=
      serveQueue_le_served cap tick s.normal_queue (s.urgentResult cap tick).served
    refine ⟨le_refl _, le_refl _, le_refl _, ?_⟩
    simp only [servePatients]
    omega
  · intro hu hn
    have h1 := serveQueue_waitDelta_nonneg cap tick s.urgent_queue 0 hu
    have h2 := serveQueue_waitDelta_nonneg cap tick s.normal_queue
      (s.urgentResult cap tick).served hn
    simp only [servePatients, Scheduler.urgentResult, Scheduler.normalResult] at h1 h2 ⊢
    omega

/-- Claim C7 (amended) witness: with fresh patients queued and tick 0,
the cumulative waiting time does not decrease across the call. -/
theorem counters_monotone_amended_witness :
    sBoth.total_waiting_time ≤ (servePatients sBoth 5 0).total_waiting_time :=
  (counters_monotone_amended sBoth pLate 5 0).2.2 (by decide) (by decide)

/-- Claim C6: the driver uppercases the CATEGORY field to `URGENT`, but
`addPatient` routes on equality with the mixed-case literal `Urgent`, so
a manually entered urgent record is appended to the NORMAL queue and
increments `total_normal` — the console path never reaches the urgent
queue. -/
theorem manual_urgent_entry_misrouted :
    (processManualEntry initScheduler "P1" 'M' "10:00" "urgent" 0).map
      (fun s => (s.urgent_queue.length, s.normal_queue.length,
        s.total_urgent, s.total_normal)) = some (0, 1, 0, 1) := by decide

theorem servePatients_total_served_delta (s : Scheduler) (cap tick : Int) :
    (servePatients s cap tick).total_served = s.total_served +
      (((s.urgentResult cap tick).servedDelta ++
        (s.normalResult cap tick).servedDelta).length : Int) := by
  have h1 := serveQueue_served_eq cap tick s.urgent_queue 0
  have h2 := serveQueue_served_eq cap tick s.normal_queue
    (s.urgentResult cap tick).served
  simp only [servePatients, Scheduler.normalResult, Scheduler.urgentResult,
    List.length_append] at h1 h2 ⊢
  push_cast
  omega

theorem servePatients_waiting_delta (s : Scheduler) (cap tick : Int) :
    (servePatients s cap tick).total_waiting_time = s.total_waiting_time +
      (((s.urgentResult cap tick).servedDelta ++
        (s.normalResult cap tick).servedDelta).map
          (fun p => tick - p.arrival_minute)).sum := by
  have h1 := serveQueue_waitDelta_eq cap tick s.urgent_queue 0
  have h2 := serveQueue_waitDelta_eq cap tick s.normal_queue
    (s.urgentResult cap tick).served
  simp only [servePatients, Scheduler.normalResult, Scheduler.urgentResult,
    List.map_append, List.sum_append] at h1 h2 ⊢
  omega

theorem servePatients_served_delta (s : Scheduler) (cap tick : Int) :
    (servePatients s cap tick).served_patients.drop s.served_patients.length =
      (s.urgentResult cap tick).servedDelta ++ (s.normalResult cap tick).servedDelta := by
  simp only [servePatients]
  exact List.drop_left _ _

theorem servePatients_served_length (s : Scheduler) (cap tick : Int) :
    (servePatients s cap tick).served_patients.length = s.served_patients.length +
      ((s.urgentResult cap tick).servedDelta ++
        (s.normalResult cap tick).servedDelta).length := by
  simp [servePatients]

theorem run_stats_aux (ops : List Op) :
    ∀ s : Scheduler,
      (run s ops).total_served = s.total_served + ((servedWaits s ops).length : Int) ∧
      ((run s ops).served_patients.length : Int) =
        (s.served_patients.length : Int) + ((servedWaits s ops).length : Int) ∧
      (run s ops).total_waiting_time = s.total_waiting_time + (servedWaits s ops).sum := by
  induction ops with
  | nil => intro s; simp [run, servedWaits]
  | cons op rest ih =>
    intro s
    cases op with
    | add p =>
      obtain ⟨ha, hb, hc⟩ := ih (addPatient s p)
      have h1 := addPatient_total_served s p
      have h2 := addPatient_served_patients s p
      have h3 := addPatient_total_waiting_time s p
      simp only [run, List.foldl_cons, runOp, servedWaits] at ha hb hc ⊢
      rw [h2] at hb
      exact ⟨by omega, by omega, by omega⟩
    | serve cap tick =>
      obtain ⟨ha, hb, hc⟩ := ih (servePatients s cap tick)
      have hts := servePatients_total_served_delta s cap tick
      have htw := servePatients_waiting_delta s cap tick
      have hdrop := servePatients_served_delta s cap tick
      have hlen := servePatients_served_length s cap tick
      simp only [run, List.foldl_cons, runOp, servedWaits, hdrop,
        List.length_append, List.sum_append, List.length_map,
        List.map_append] at ha hb hc hts htw hlen ⊢
      push_cast at ha hb hc hts htw hlen ⊢
      omega

/-- Claim C4: over any sequence of `addPatient` and `servePatients`
calls from the initial state, `total_served` equals the length of the
served log, `total_waiting_time` equals the sum over every entry ever
appended to the served log of its serving-call tick minus its arrival
tick, and therefore the reported average is exactly the arithmetic mean
of those waits. -/
theorem run_statistics_correct (ops : List Op) :
    (run initScheduler ops).total_served =
      ((servedWaits initScheduler ops).length : Int) ∧
    ((run initScheduler ops).served_patients.length : Int) =
      ((servedWaits initScheduler ops).length : Int) ∧
    (run initScheduler ops).total_waiting_time =
      (servedWaits initScheduler ops).sum ∧
    (0 < (run initScheduler ops).total_served →
      averageWaitingTime (run initScheduler ops) =
        some (((servedWaits initScheduler ops).sum : ℚ) /
          ((servedWaits initScheduler ops).length : ℚ))) := by
  obtain ⟨ha, hb, hc⟩ := run_stats_aux ops initScheduler
  have h0 : initScheduler.total_served = 0 := rfl
  have h1 : initScheduler.served_patients.length = 0 := rfl
  have h2 : initScheduler.total_waiting_time = 0 := rfl
  refine ⟨by omega, by omega, by omega, ?_⟩
  intro hpos
  have hts : (run initScheduler ops).total_served =
      ((servedWaits initScheduler ops).length : Int) := by omega
  have htw : (run initScheduler ops).total_waiting_time =
      (servedWaits initScheduler ops).sum := by omega
  have hpos2 : (0 : Int) < ((servedWaits initScheduler ops).length : Int) := hts ▸ hpos
  simp only [averageWaitingTime, hts, htw, if_pos hpos2]
  push_cast
  rfl

/-- Claim C4 witness: admitting one urgent patient at tick 0 and serving
at tick 5 makes the reported average exactly the mean of the logged
waits. -/
theorem run_statistics_correct_witness :
    averageWaitingTime (run initScheduler opsDemo) =
      some (((servedWaits initScheduler opsDemo).sum : ℚ) /
        ((servedWaits initScheduler opsDemo).length : ℚ)) :=
  (run_statistics_correct opsDemo).2.2.2 (by decide)
